import Mathlib

/-!
# Verification of the HDP-LDA CRF sampler (`microscopes/lda`)

Shallow embedding of `src/include/microscopes/lda/model.hpp` and
`src/include/microscopes/lda/util.hpp`.

Modelling conventions:
* C++ `float` arithmetic is embedded as exact rational arithmetic (`ℚ`);
  `size_t` as `ℕ` (the `size_t` wrap-around on underflow is not modelled;
  claims touching decrements carry the positivity hypotheses that the code
  itself asserts).
* `lda_util::defaultdict<size_t,float>` is modelled by its observable
  `get` function `ℕ → ℚ`; `incr`/`decr`/`set` act pointwise, which agrees
  with the C++ semantics of `get` after any sequence of operations.
* `std::map<size_t,size_t>` (the per-table per-word counters `n_jtv`) is
  modelled as a key-sorted association list, preserving the iteration
  order of `std::map`.
* C++ `std::vector` indexing is embedded with `List.getD`/`modL`; all
  claims are stated with the in-bounds hypotheses under which the C++
  code is defined.
* The external categorical sampler `common::util::sample_discrete` (an
  external collaborator, out of scope per the spec) is modelled as
  consuming one draw from a stream of pre-determined indices, which is
  exactly the granularity at which the spec's determinism property is
  phrased.
* A `MICROSCOPES_DCHECK` failure and a fatal probability-vector
  validation failure are modelled as `Except.error`.
-/

namespace Lda

/-- A non-finite `float` is modelled as `none`; finite values as `some q`. -/
abbrev FVal := Option ℚ

/-- Stream of categorical draws supplied by the external RNG. -/
abbrev RNG := List ℕ

/-- In-place modification of one vector slot (`v[i] = f(v[i])`); out of
range it is the identity, while the C++ source only performs it in range. -/
def modL : List α → ℕ → (α → α) → List α
  | [], _, _ => []
  | a :: as, 0, f => f a :: as
  | a :: as, n + 1, f => a :: modL as n f

/-- Nested two-level vector slot modification (`v[i][j] = f(v[i][j])`). -/
def modL2 (l : List (List α)) (i j : ℕ) (f : α → α) : List (List α) :=
  modL l i (fun row => modL row j f)

/-- Two-level read `v[i][j]` with a default. -/
def getD2 (l : List (List α)) (i j : ℕ) (d : α) : α :=
  (l.getD i []).getD j d

/-- Pointwise update of a `defaultdict` modelled as a function. -/
def updF (f : ℕ → β) (x : ℕ) (y : β) : ℕ → β :=
  fun z => if z = x then y else f z

/-- Embedding of `std::vector::insert(begin()+n, a)`. -/
def insertAt (l : List α) (n : ℕ) (a : α) : List α :=
  l.take n ++ a :: l.drop n

/-- The free-id linear scan of `create_dish`/`create_table`: starting
candidate `i`, return the first position whose stored id differs from its
index (the stored sequence is sorted), else the length. -/
def fgGo : ℕ → List ℕ → ℕ
  | i, [] => i
  | i, x :: xs => if i ≠ x then i else fgGo (i + 1) xs

/-- The id `k_new` produced by the linear scans in `create_dish`/`create_table`. -/
def firstGap (l : List ℕ) : ℕ := fgGo 0 l

/-- Embedding of `std::map<size_t,size_t>` lookup (`0` when the key is absent),
on the key-sorted association-list model. -/
def mapGet : List (ℕ × ℕ) → ℕ → ℕ
  | [], _ => 0
  | (w, c) :: rest, v => if v = w then c else if v < w then 0 else mapGet rest v

/-- Embedding of `m[v] += d` on a `std::map<size_t,size_t>` (inserting `d` when absent),
keeping the keys sorted. -/
def mapIncr : List (ℕ × ℕ) → ℕ → ℕ → List (ℕ × ℕ)
  | [], v, d => [(v, d)]
  | (w, c) :: rest, v, d =>
    if v = w then (w, c + d) :: rest
    else if v < w then (v, d) :: (w, c) :: rest
    else (w, c) :: mapIncr rest v d

/-- Embedding of `m[v] -= d` on a `std::map<size_t,size_t>`; truncated at zero in the
model (the `size_t` wrap-around of the C++ is never exercised under the
count invariants assumed by the claims). -/
def mapDecr : List (ℕ × ℕ) → ℕ → ℕ → List (ℕ × ℕ)
  | [], v, d => [(v, 0 - d)]
  | (w, c) :: rest, v, d =>
    if v = w then (w, c - d) :: rest
    else if v < w then (v, 0 - d) :: (w, c) :: rest
    else (w, c) :: mapDecr rest v d

/-- Embedding of `vec /= vec.sum()` (`lda_util::normalize`, Eigen elementwise divide). -/
def normalizeQ (v : List ℚ) : List ℚ :=
  v.map (fun x => x / v.sum)

/-- Eigen dot product of the ratio vector with the (cast) table-count
vector, `eigen_f_k.dot(eigen_m_k.cast<float>())`. -/
def dotQ (f : List ℚ) (mk : List ℕ) : ℚ :=
  (List.zipWith (fun a b => a * (b : ℚ)) f mk).sum

/-- Success test for `Except`. -/
def exceptOk : Except ε α → Bool
  | Except.ok _ => true
  | Except.error _ => false

/-- Embedding of `std::abs` on the rational embedding of `float`. -/
def absQ (x : ℚ) : ℚ := if x < 0 then -x else x

/-- The loop body of `lda_util::valid_probability_vector`: scan the
entries, rejecting on a non-finite or negative entry, accumulating the
sum, and finally compare the sum with 1 at absolute tolerance 0.01. -/
def vpv_go : ℚ → List FVal → Bool
  | sum, [] => decide (absQ (1 - sum) < 1 / 100)
  | sum, x :: rest =>
    match x with
    | none => false
    | some q => if q < 0 then false else vpv_go (sum + q) rest

/-- Embedding of `lda_util::valid_probability_vector`. -/
def valid_probability_vector (p : List FVal) : Bool :=
  vpv_go 0 p

/-- Modelled from the spec: the body of `util::validate_probability_vector`
(called by the sampler in `model.hpp`) is not among the sources; per the
spec, a vector failing the validity check is a fatal invariant failure.
It is modelled as throwing exactly when `lda_util::valid_probability_vector`
(whose source is present) rejects the vector. -/
def validate_probability_vector (p : List ℚ) : Except Unit Unit :=
  if valid_probability_vector (p.map some) then Except.ok () else Except.error ()

/-- The external categorical sampler (`common::util::sample_discrete`):
consumes one draw from the stream; the draw directly selects the index. -/
def sample_discrete (p : List ℚ) (r : RNG) : ℕ × RNG :=
  ((r.headD 0) % p.length, r.tail)

/-- External special functions `distributions::fast_log`,
`distributions::fast_lgamma` and `exp` — collaborators assumed supplied,
so the sampler is parameterized over them. -/
structure Numerics where
  flog : ℚ → ℚ
  flgamma : ℚ → ℚ
  fexp : ℚ → ℚ

/-- Embedding of `microscopes::lda::state`, the CRP state container.  The `rng_`
member is threaded separately through the sampling functions. -/
@[ext]
structure state where
  V : ℕ
  m : ℕ
  alpha_ : ℚ
  beta_ : ℚ
  gamma_ : ℚ
  using_t : List (List ℕ)
  dishes_ : List ℕ
  x_ji : List (List ℕ)
  k_jt : List (List ℕ)
  n_jt : List (List ℕ)
  n_jtv : List (List (List (ℕ × ℕ)))
  m_k : List ℕ
  n_k : ℕ → ℚ
  n_kv_ : List (ℕ → ℚ)
  t_ji : List (List ℕ)

/-- Embedding of `model_definition::model_definition(n, v)` with its two
`MICROSCOPES_DCHECK`s, modelled as a fallible smart constructor. -/
def model_definition_make (n v : ℕ) : Except String (ℕ × ℕ) :=
  if 0 < n then
    if 0 < v then Except.ok (n, v) else Except.error "no terms"
  else Except.error "no docs"

/-- The `state::state(def, alpha, beta, gamma, docs, rng)` constructor
body (it performs no validity checks of its own). -/
def state_new (v : ℕ) (alpha beta gamma : ℚ) (docs : List (List ℕ)) : state :=
  { V := v
    m := 0
    alpha_ := alpha
    beta_ := beta
    gamma_ := gamma
    using_t := docs.map (fun _ => [0])
    dishes_ := [0]
    x_ji := docs
    k_jt := docs.map (fun _ => [0])
    n_jt := docs.map (fun _ => [0])
    n_jtv := docs.map (fun _ => [[]])
    m_k := [1]
    n_k := fun _ => beta * (v : ℚ)
    n_kv_ := [fun _ => beta]
    t_ji := docs.map (fun d => d.map (fun _ => 0)) }

/-- Embedding of `state::initialize`: `model_definition` validation followed by the
`state` constructor (the constructor ignores `def.n()`, as the C++ does). -/
def initialize_state (n v : ℕ) (alpha beta gamma : ℚ)
    (docs : List (List ℕ)) : Except String state :=
  (model_definition_make n v).map (fun d => state_new d.2 alpha beta gamma docs)

/-- Embedding of `state::score_assignment` — a constant, `const` member. -/
def score_assignment (_s : state) : ℚ := 0

/-- Embedding of `state::score_data` — a constant, `const` member (the `rng` argument
is unused). -/
def score_data (_s : state) (_r : RNG) : ℚ := 0

/-- Embedding of `state::table_assignments`: `MICROSCOPES_DCHECK(false,
"table_assignments not implemented")` before ever building a result. -/
def table_assignments (_s : state) : Except String (List (List ℕ)) :=
  Except.error "table_assignments not implemented"

/-- Embedding of `state::dish_assignments`: `MICROSCOPES_DCHECK(false,
"dish_assignments not implemented")` before ever building a result. -/
def dish_assignments (_s : state) : Except String (List (List (ℕ × ℕ))) :=
  Except.error "dish_assignments not implemented"

/-- Embedding of `state::calc_f_k(v)`. -/
def calc_f_k (s : state) (v : ℕ) : List ℚ :=
  (List.range s.n_kv_.length).map (fun k =>
    if k = 0 then ((s.n_kv_.getD 0 (fun _ => 0)) v - s.beta_) / s.n_k 0
    else ((s.n_kv_.getD k (fun _ => 0)) v) / s.n_k k)

/-- Embedding of `state::calc_table_posterior(j, f_k)`. -/
def calc_table_posterior (s : state) (j : ℕ) (f_k : List ℚ) : List ℚ :=
  let ut := s.using_t.getD j []
  let raw := ut.map (fun p =>
    ((getD2 s.n_jt j p 0 : ℕ) : ℚ) * f_k.getD (getD2 s.k_jt j p 0) 0)
  let p_x := s.gamma_ / (s.V : ℚ) + dotQ f_k s.m_k
  normalizeQ (raw.set 0 (p_x * s.alpha_ / (s.gamma_ + (s.m : ℚ))))

/-- Embedding of `state::calc_dish_posterior_w(f_k)`. -/
def calc_dish_posterior_w (s : state) (f_k : List ℚ) : List ℚ :=
  let raw := s.dishes_.map (fun k => ((s.m_k.getD k 0 : ℕ) : ℚ) * f_k.getD k 0)
  normalizeQ (raw.set 0 (s.gamma_ / (s.V : ℚ)))

/-- Embedding of `state::calc_dish_posterior_t(j, t)`: collapsed log-posterior over the
active-dish sequence, then log-sum-exp stabilized normalization. -/
def calc_dish_posterior_t (nm : Numerics) (s : state) (j t : ℕ) : List ℚ :=
  let k_old := getD2 s.k_jt j t 0
  let njt : ℚ := ((getD2 s.n_jt j t 0 : ℕ) : ℚ)
  let l0 : List ℚ := s.dishes_.map (fun k =>
    if k = 0 then 0
    else
      let n_k_val : ℚ := if k = k_old then s.n_k k - njt else s.n_k k
      nm.flog ((s.m_k.getD k 0 : ℕ) : ℚ) + nm.flgamma n_k_val -
        nm.flgamma (n_k_val + njt))
  let l1 := l0.set 0 (nm.flog s.gamma_ + nm.flgamma ((s.V : ℚ) * s.beta_) -
    nm.flgamma ((s.V : ℚ) * s.beta_ + njt))
  let l2 := (getD2 s.n_jtv j t []).foldl (fun acc wc =>
    if wc.2 = 0 then acc
    else
      let njtw : ℚ := ((wc.2 : ℕ) : ℚ)
      let n_kw : List ℚ := s.dishes_.map (fun k =>
        (s.n_kv_.getD k (fun _ => 0)) wc.1 - (if k = k_old then njtw else 0))
      let n_kw := n_kw.set 0 1
      (List.range acc.length).map (fun idx =>
        if idx = 0 then acc.getD 0 0 + nm.flgamma (s.beta_ + njtw) - nm.flgamma s.beta_
        else acc.getD idx 0 + nm.flgamma (n_kw.getD idx 0 + njtw) -
          nm.flgamma (n_kw.getD idx 0))) l1
  let mx := l2.foldl max (l2.headD 0)
  normalizeQ (l2.map (fun x => nm.fexp (x - mx)))

/-- Embedding of `state::leave_from_dish(j, t)`. -/
def leave_from_dish (s : state) (j t : ℕ) : state :=
  let k := getD2 s.k_jt j t 0
  let s1 := { s with m_k := modL s.m_k k (· - 1), m := s.m - 1 }
  if s1.m_k.getD k 0 = 0 then
    { s1 with dishes_ := s1.dishes_.erase k, k_jt := modL2 s1.k_jt j t (fun _ => 0) }
  else s1

/-- Embedding of `state::seat_at_dish(j, t, k_new)`. -/
def seat_at_dish (s : state) (j t k_new : ℕ) : state :=
  let s0 := { s with m := s.m + 1, m_k := modL s.m_k k_new (· + 1) }
  let k_old := getD2 s0.k_jt j t 0
  if k_new ≠ k_old then
    let njt : ℚ := ((getD2 s0.n_jt j t 0 : ℕ) : ℚ)
    let s1 := { s0 with k_jt := modL2 s0.k_jt j t (fun _ => k_new) }
    let s2 := if k_old ≠ 0 then
        { s1 with n_k := updF s1.n_k k_old (s1.n_k k_old - njt) }
      else s1
    let s3 := { s2 with n_k := updF s2.n_k k_new (s2.n_k k_new + njt) }
    (getD2 s3.n_jtv j t []).foldl (fun acc wc =>
      let nq : ℚ := ((wc.2 : ℕ) : ℚ)
      let acc1 := if k_old ≠ 0 then
          { acc with n_kv_ := modL acc.n_kv_ k_old (fun dd => updF dd wc.1 (dd wc.1 - nq)) }
        else acc
      { acc1 with n_kv_ := modL acc1.n_kv_ k_new (fun dd => updF dd wc.1 (dd wc.1 + nq)) }) s3
  else s0

/-- Embedding of `state::add_table(ein, t_new, did)` (attach). -/
def add_table (s : state) (ein t_new did : ℕ) : state :=
  let s1 := { s with t_ji := modL2 s.t_ji ein did (fun _ => t_new)
                     n_jt := modL2 s.n_jt ein t_new (· + 1) }
  let k_new := getD2 s1.k_jt ein t_new 0
  let s2 := { s1 with n_k := updF s1.n_k k_new (s1.n_k k_new + 1) }
  let v := getD2 s1.x_ji ein did 0
  { s2 with n_kv_ := modL s2.n_kv_ k_new (fun dd => updF dd v (dd v + 1))
            n_jtv := modL2 s2.n_jtv ein t_new (fun mp => mapIncr mp v 1) }

/-- Embedding of `state::create_dish()`. -/
def create_dish (s : state) : ℕ × state :=
  let k_new := firstGap s.dishes_
  let s0 := if k_new = s.dishes_.length then
      { s with m_k := s.m_k ++ [s.m_k.getD 0 0]
               n_kv_ := s.n_kv_ ++ [fun _ => s.beta_] }
    else s
  (k_new,
    { s0 with dishes_ := insertAt s0.dishes_ k_new k_new
              n_k := updF s0.n_k k_new (s.beta_ * (s.V : ℚ))
              n_kv_ := modL s0.n_kv_ k_new (fun _ => (fun _ => s.beta_))
              m_k := modL s0.m_k k_new (fun _ => 0) })

/-- Embedding of `state::create_table(ein, k_new)`. -/
def create_table (s : state) (ein k_new : ℕ) : ℕ × state :=
  let ut := s.using_t.getD ein []
  let t_new := firstGap ut
  let s0 := if t_new = ut.length then
      { s with n_jt := modL s.n_jt ein (· ++ [0])
               k_jt := modL s.k_jt ein (· ++ [0])
               n_jtv := modL s.n_jtv ein (· ++ [[]]) }
    else s
  (t_new,
    { s0 with using_t := modL s0.using_t ein (fun l => insertAt l t_new t_new)
              n_jt := modL2 s0.n_jt ein t_new (fun _ => 0)
              k_jt := modL2 s0.k_jt ein t_new (fun _ => k_new)
              m_k := modL s0.m_k k_new (· + 1)
              m := s0.m + 1 })

/-- Embedding of `state::delete_dish(did)` (`lda_util::removeFirst`). -/
def delete_dish (s : state) (did : ℕ) : state :=
  { s with dishes_ := s.dishes_.erase did }

/-- Embedding of `state::delete_table(eid, tid)`. -/
def delete_table (s : state) (eid tid : ℕ) : state :=
  let k := getD2 s.k_jt eid tid 0
  let s1 := { s with using_t := modL s.using_t eid (·.erase tid)
                     m_k := modL s.m_k k (· - 1)
                     m := s.m - 1 }
  if s1.m_k.getD k 0 = 0 then delete_dish s1 k else s1

/-- Embedding of `state::remove_table(eid, tid)` (detach). -/
def remove_table (s : state) (eid tid : ℕ) : state :=
  let t := getD2 s.t_ji eid tid 0
  if 0 < t then
    let k := getD2 s.k_jt eid t 0
    let v := getD2 s.x_ji eid tid 0
    let s1 := { s with
      n_kv_ := modL s.n_kv_ k (fun dd => updF dd v (dd v - 1))
      n_k := updF s.n_k k (s.n_k k - 1)
      n_jt := modL2 s.n_jt eid t (· - 1)
      n_jtv := modL2 s.n_jtv eid t (fun mp => mapDecr mp v 1) }
    if getD2 s1.n_jt eid t 0 = 0 then delete_table s1 eid t else s1
  else s

/-- Embedding of `state::sampling_t(j, i)`: the word-phase resampling step, threading
the RNG stream and surfacing a fatal validation failure as an error. -/
def sampling_t (_nm : Numerics) (s : state) (j i : ℕ) (r : RNG) :
    Except Unit (state × RNG) :=
  let s0 := remove_table s j i
  let v := getD2 s0.x_ji j i 0
  let f_k := calc_f_k s0 v
  let p_t := calc_table_posterior s0 j f_k
  match validate_probability_vector p_t with
  | Except.error e => Except.error e
  | Except.ok _ =>
    let word := (sample_discrete p_t r).1
    let r1 := (sample_discrete p_t r).2
    let t0 := (s0.using_t.getD j []).getD word 0
    if t0 = 0 then
      let p_k := calc_dish_posterior_w s0 f_k
      match validate_probability_vector p_k with
      | Except.error e => Except.error e
      | Except.ok _ =>
        let ti := (sample_discrete p_k r1).1
        let r2 := (sample_discrete p_k r1).2
        let k0 := s0.dishes_.getD ti 0
        let kd := if k0 = 0 then create_dish s0 else (k0, s0)
        let td := create_table kd.2 j kd.1
        Except.ok (add_table td.2 j td.1 i, r2)
    else Except.ok (add_table s0 j t0 i, r1)

/-- Embedding of `state::sampling_k(j, t)`: the table-phase resampling step. -/
def sampling_k (nm : Numerics) (s : state) (j t : ℕ) (r : RNG) :
    Except Unit (state × RNG) :=
  let s0 := leave_from_dish s j t
  let p_k := calc_dish_posterior_t nm s0 j t
  match validate_probability_vector p_k with
  | Except.error e => Except.error e
  | Except.ok _ =>
    let ti := (sample_discrete p_k r).1
    let r1 := (sample_discrete p_k r).2
    let k0 := s0.dishes_.getD ti 0
    let kd := if k0 = 0 then create_dish s0 else (k0, s0)
    Except.ok (seat_at_dish kd.2 j t kd.1, r1)

/-- The word phase of `state::_inference`: every document, every word, in
document order (`x_ji` is a `const` member, so its bounds are fixed). -/
def wordPhase (nm : Numerics) (s : state) (r : RNG) :
    Except Unit (state × RNG) :=
  (List.range s.x_ji.length).foldlM
    (fun acc j => (List.range ((s.x_ji.getD j []).length)).foldlM
      (fun acc2 i => sampling_t nm acc2.1 j i acc2.2) acc)
    (s, r)

/-- The table phase of `state::_inference`: for every document, every
currently active table (the range-for iterates `using_t[j]`, which
`sampling_k` never structurally modifies, so the snapshot at the start of
the document's loop is faithful), skipping the sentinel. -/
def tablePhase (nm : Numerics) (s : state) (r : RNG) :
    Except Unit (state × RNG) :=
  (List.range s.x_ji.length).foldlM
    (fun acc j => (acc.1.using_t.getD j []).foldlM
      (fun acc2 t => if t = 0 then pure acc2 else sampling_k nm acc2.1 j t acc2.2)
      acc)
    (s, r)

/-- Embedding of `state::_inference`: the word phase over all documents, fully followed
by the table phase over all documents. -/
def _inference (nm : Numerics) (s : state) (r : RNG) :
    Except Unit (state × RNG) :=
  match wordPhase nm s r with
  | Except.error e => Except.error e
  | Except.ok a => tablePhase nm a.1 a.2

/-! ### Concrete instances used by the witness and counterexample theorems -/

/-- Trivial instantiation of the external special functions. -/
def nmId : Numerics := ⟨id, id, id⟩

/-- The freshly-constructed Scenario A state (`test_random.cpp`):
corpus `[[0,1,2,3],[0,1,4,5],[0,1,5,6]]`, `V = 7`, `alpha = 0.2`,
`beta = 0.01`, `gamma = 0.5`. -/
def SA : state :=
  state_new 7 (1 / 5) (1 / 100) (1 / 2) [[0, 1, 2, 3], [0, 1, 4, 5], [0, 1, 5, 6]]

/-- Scenario A corpus with `alpha = 0`: the first word's table posterior
degenerates to the zero vector and fails validation. -/
def S0bad : state :=
  state_new 7 0 (1 / 100) (1 / 2) [[0, 1, 2, 3], [0, 1, 4, 5], [0, 1, 5, 6]]

/-- A one-word state whose single word is the only occupant of table 1
(dish 1): detaching it cascades into table and dish destruction. -/
def CX5 : state :=
  { V := 7
    m := 1
    alpha_ := 1 / 5
    beta_ := 1 / 100
    gamma_ := 1 / 2
    using_t := [[0, 1]]
    dishes_ := [0, 1]
    x_ji := [[5]]
    k_jt := [[0, 1]]
    n_jt := [[0, 1]]
    n_jtv := [[[], [(5, 1)]]]
    m_k := [1, 1]
    n_k := fun k => if k = 1 then 1 + (7 : ℚ) / 100 else (7 : ℚ) / 100
    n_kv_ := [fun _ => 1 / 100, fun v => if v = 5 then 1 + (1 : ℚ) / 100 else 1 / 100]
    t_ji := [[1]] }

/-- A state whose document 0 holds two copies of word 4 at table 1
(dish 1): detaching either copy leaves the table alive. -/
def WX5 : state :=
  { V := 7
    m := 1
    alpha_ := 1 / 5
    beta_ := 1 / 100
    gamma_ := 1 / 2
    using_t := [[0, 1]]
    dishes_ := [0, 1]
    x_ji := [[4, 4]]
    k_jt := [[0, 1]]
    n_jt := [[0, 2]]
    n_jtv := [[[], [(4, 2)]]]
    m_k := [1, 1]
    n_k := fun k => if k = 1 then 2 + (7 : ℚ) / 100 else (7 : ℚ) / 100
    n_kv_ := [fun _ => 1 / 100, fun v => if v = 4 then 2 + (1 : ℚ) / 100 else 1 / 100]
    t_ji := [[1, 1]] }

/-- A state in which dish 1 owns two tables (`m_k[1] = 2`), so removing
one table from the dish does not destroy it. -/
def CX6 : state :=
  { V := 7
    m := 2
    alpha_ := 1 / 5
    beta_ := 1 / 100
    gamma_ := 1 / 2
    using_t := [[0, 1, 2]]
    dishes_ := [0, 1]
    x_ji := [[3, 3]]
    k_jt := [[0, 1, 1]]
    n_jt := [[0, 1, 1]]
    n_jtv := [[[], [(3, 1)], [(3, 1)]]]
    m_k := [1, 2]
    n_k := fun k => if k = 1 then 2 + (7 : ℚ) / 100 else (7 : ℚ) / 100
    n_kv_ := [fun _ => 1 / 100, fun v => if v = 3 then 2 + (1 : ℚ) / 100 else 1 / 100]
    t_ji := [[1, 2]] }

/-- A state whose id namespaces have gaps: active dishes `{0,1,3}` (2 is
free) and, in document 0, active tables `{0,2}` (1 is free). -/
def WX3 : state :=
  { V := 7
    m := 3
    alpha_ := 1 / 5
    beta_ := 1 / 100
    gamma_ := 1 / 2
    using_t := [[0, 2]]
    dishes_ := [0, 1, 3]
    x_ji := [[1]]
    k_jt := [[0, 0, 1]]
    n_jt := [[0, 0, 1]]
    n_jtv := [[[], [], [(1, 1)]]]
    m_k := [1, 2, 0, 1]
    n_k := fun _ => 1
    n_kv_ := [fun _ => 1 / 100, fun _ => 1 / 100, fun _ => 1 / 100, fun _ => 1 / 100]
    t_ji := [[2]] }

/-! ### Helper lemmas about the embedding primitives -/

theorem modL_oob (l : List α) (i : ℕ) (f : α → α) (h : l.length ≤ i) :
    modL l i f = l := by
  induction l generalizing i with
  | nil => rfl
  | cons a as ih =>
    cases i with
    | zero => simp at h
    | succ n => simp only [modL]; rw [ih n (by simpa using h)]

theorem length_modL (l : List α) (i : ℕ) (f : α → α) :
    (modL l i f).length = l.length := by
  induction l generalizing i with
  | nil => rfl
  | cons a as ih =>
    cases i with
    | zero => rfl
    | succ n => simp only [modL, List.length_cons, ih]

theorem getD_modL_self (l : List α) (i : ℕ) (f : α → α) (d : α)
    (h : i < l.length) : (modL l i f).getD i d = f (l.getD i d) := by
  induction l generalizing i with
  | nil => simp at h
  | cons a as ih =>
    cases i with
    | zero => rfl
    | succ n => simpa only [modL, List.getD_cons_succ] using ih n (by simpa using h)

theorem modL_eq_self (l : List α) (i : ℕ) (f : α → α) (d : α)
    (h : f (l.getD i d) = l.getD i d) : modL l i f = l := by
  induction l generalizing i with
  | nil => rfl
  | cons a as ih =>
    cases i with
    | zero => simpa only [modL, List.getD_cons_zero] using congrArg (· :: as) h
    | succ n =>
      simp only [modL]
      rw [ih n (by simpa only [List.getD_cons_succ] using h)]

theorem modL_modL (l : List α) (i : ℕ) (f g : α → α) :
    modL (modL l i f) i g = modL l i (fun a => g (f a)) := by
  induction l generalizing i with
  | nil => rfl
  | cons a as ih =>
    cases i with
    | zero => rfl
    | succ n => simp only [modL]; rw [ih]

theorem getD2_oob (l : List (List α)) (i j : ℕ) (d : α)
    (h : ¬(i < l.length ∧ j < (l.getD i []).length)) : getD2 l i j d = d := by
  unfold getD2
  rcases not_and_or.mp h with hi | hj
  · rw [List.getD_eq_default _ _ (Nat.le_of_not_lt hi)]
    exact List.getD_nil ..
  · exact List.getD_eq_default _ _ (Nat.le_of_not_lt hj)

theorem getD2_pos_lt {l : List (List ℕ)} {i j : ℕ} (h : 0 < getD2 l i j 0) :
    i < l.length ∧ j < (l.getD i []).length := by
  by_contra hc
  rw [getD2_oob l i j 0 hc] at h
  exact Nat.lt_irrefl 0 h

theorem getD2_modL2_self (l : List (List α)) (i j : ℕ) (f : α → α) (d : α)
    (hi : i < l.length) (hj : j < (l.getD i []).length) :
    getD2 (modL2 l i j f) i j d = f (getD2 l i j d) := by
  unfold getD2 modL2
  rw [getD_modL_self _ _ _ _ hi, getD_modL_self _ _ _ _ hj]

theorem modL2_modL2 (l : List (List α)) (i j : ℕ) (f g : α → α) :
    modL2 (modL2 l i j f) i j g = modL2 l i j (fun a => g (f a)) := by
  unfold modL2
  rw [modL_modL]
  exact congrArg (modL l i) (funext fun row => modL_modL row j f g)

theorem modL2_eq_self (l : List (List α)) (i j : ℕ) (f : α → α) (d : α)
    (h : f (getD2 l i j d) = getD2 l i j d) : modL2 l i j f = l := by
  unfold modL2
  exact modL_eq_self l i _ [] (modL_eq_self _ j f d h)

theorem absQ_eq_abs (x : ℚ) : absQ x = |x| := by
  unfold absQ
  split
  · rw [abs_of_neg (by assumption)]
  · rw [abs_of_nonneg (not_lt.mp (by assumption))]

theorem getD2_modL2_const_zero (l : List (List ℕ)) (i j : ℕ) :
    getD2 (modL2 l i j (fun _ => 0)) i j 0 = 0 := by
  by_cases hb : i < l.length ∧ j < (l.getD i []).length
  · rw [getD2_modL2_self l i j _ 0 hb.1 hb.2]
  · apply getD2_oob
    intro hc
    apply hb
    unfold modL2 at hc
    rw [length_modL] at hc
    refine ⟨hc.1, ?_⟩
    have hrow := hc.2
    rw [getD_modL_self _ _ _ _ hc.1, length_modL] at hrow
    exact hrow

theorem updF_updF (f : ℕ → β) (x : ℕ) (y y' : β) :
    updF (updF f x y) x y' = updF f x y' := by
  funext z
  unfold updF
  by_cases hz : z = x <;> simp [hz]

theorem updF_self (f : ℕ → β) (x : ℕ) : updF f x (f x) = f := by
  funext z
  unfold updF
  by_cases hz : z = x <;> simp [hz]

theorem updF_apply (f : ℕ → β) (x : ℕ) (y : β) : updF f x y x = y := by
  simp [updF]

theorem mapIncr_mapDecr (l : List (ℕ × ℕ)) (v : ℕ) (h : 1 ≤ mapGet l v) :
    mapIncr (mapDecr l v 1) v 1 = l := by
  induction l with
  | nil => simp [mapGet] at h
  | cons wc rest ih =>
    obtain ⟨w, c⟩ := wc
    rcases Nat.lt_trichotomy v w with hlt | heq | hgt
    · simp [mapGet, Nat.ne_of_lt hlt, hlt] at h
    · subst heq
      have hc : 1 ≤ c := by simpa [mapGet] using h
      have hd : mapDecr ((v, c) :: rest) v 1 = (v, c - 1) :: rest := by
        simp [mapDecr]
      have hi2 : mapIncr ((v, c - 1) :: rest) v 1 = (v, c - 1 + 1) :: rest := by
        simp [mapIncr]
      rw [hd, hi2]
      congr 2
      omega
    · have hne : v ≠ w := Nat.ne_of_gt hgt
      have hnlt : ¬v < w := Nat.lt_asymm hgt
      simp only [mapGet, if_neg hne, if_neg hnlt] at h
      simp only [mapDecr, mapIncr, if_neg hne, if_neg hnlt]
      rw [ih h]

theorem sum_map_div (l : List ℚ) (c : ℚ) :
    (l.map (fun x => x / c)).sum = l.sum / c := by
  induction l with
  | nil => simp
  | cons x xs ih => simp [ih, add_div]

theorem fgGo_spec (l : List ℕ) (i : ℕ) (hs : l.Pairwise (· < ·))
    (hge : ∀ x ∈ l, i ≤ x) :
    fgGo i l ∉ l ∧ i ≤ fgGo i l ∧ ∀ n, i ≤ n → n < fgGo i l → n ∈ l := by
  induction l generalizing i with
  | nil =>
    refine ⟨List.not_mem_nil _, Nat.le_refl _, fun n hn hlt => absurd hlt ?_⟩
    exact Nat.not_lt_of_le hn
  | cons x xs ih =>
    rw [List.pairwise_cons] at hs
    rcases eq_or_ne i x with heq | hne
    · subst heq
      have hred : fgGo i (i :: xs) = fgGo (i + 1) xs := by simp [fgGo]
      rw [hred]
      have hge' : ∀ y ∈ xs, i + 1 ≤ y := fun y hy => hs.1 y hy
      obtain ⟨g1, g2, g3⟩ := ih (i + 1) hs.2 hge'
      refine ⟨?_, Nat.le_trans (Nat.le_succ i) g2, ?_⟩
      · intro hmem
        rcases List.mem_cons.mp hmem with h1 | h1
        · omega
        · exact g1 h1
      · intro n hn hlt
        rcases Nat.eq_or_lt_of_le hn with h1 | h1
        · exact List.mem_cons.mpr (Or.inl h1.symm)
        · exact List.mem_cons_of_mem _ (g3 n h1 hlt)
    · have hred : fgGo i (x :: xs) = i := by simp [fgGo, hne]
      rw [hred]
      refine ⟨?_, Nat.le_refl _, fun n hn hlt => absurd hlt (by omega)⟩
      intro hmem
      rcases List.mem_cons.mp hmem with h1 | h1
      · exact hne h1
      · have hx : i ≤ x := hge x (List.mem_cons_self x xs)
        have hxy : x < i := hs.1 i h1
        omega

theorem firstGap_spec (l : List ℕ) (hs : l.Pairwise (· < ·)) :
    firstGap l ∉ l ∧ ∀ n, n < firstGap l → n ∈ l := by
  obtain ⟨g1, _, g3⟩ := fgGo_spec l 0 hs (fun x _ => Nat.zero_le x)
  exact ⟨g1, fun n hlt => g3 n (Nat.zero_le n) hlt⟩

theorem length_insertAt (l : List α) (n : ℕ) (a : α) :
    (insertAt l n a).length = l.length + 1 := by
  unfold insertAt
  simp only [List.length_append, List.length_cons, List.length_take,
    List.length_drop]
  omega

theorem mem_insertAt (l : List α) (n : ℕ) (a : α) (x : α) :
    x ∈ insertAt l n a ↔ x = a ∨ x ∈ l := by
  unfold insertAt
  constructor
  · intro hx
    rcases List.mem_append.mp hx with h1 | h1
    · exact Or.inr (List.take_subset n l h1)
    · rcases List.mem_cons.mp h1 with h2 | h2
      · exact Or.inl h2
      · exact Or.inr (List.drop_subset n l h2)
  · intro hx
    rcases hx with h1 | h1
    · exact List.mem_append.mpr (Or.inr (List.mem_cons.mpr (Or.inl h1)))
    · have h1' : x ∈ List.take n l ++ List.drop n l := by
        rw [List.take_append_drop]
        exact h1
      rcases List.mem_append.mp h1' with h2 | h2
      · exact List.mem_append.mpr (Or.inl h2)
      · exact List.mem_append.mpr (Or.inr (List.mem_cons_of_mem a h2))

theorem create_dish_fst (s : state) : (create_dish s).1 = firstGap s.dishes_ :=
  rfl

theorem create_dish_using_t (s : state) : (create_dish s).2.using_t = s.using_t := by
  simp only [create_dish]
  split <;> rfl

theorem create_dish_dishes (s : state) :
    (create_dish s).2.dishes_ =
      insertAt s.dishes_ (firstGap s.dishes_) (firstGap s.dishes_) := by
  simp only [create_dish]
  split <;> rfl

theorem create_table_fst (s : state) (ein k : ℕ) :
    (create_table s ein k).1 = firstGap (s.using_t.getD ein []) :=
  rfl

theorem create_table_using_t (s : state) (ein k : ℕ) :
    (create_table s ein k).2.using_t =
      modL s.using_t ein (fun l => insertAt l (firstGap (s.using_t.getD ein []))
        (firstGap (s.using_t.getD ein []))) := by
  simp only [create_table]
  split <;> rfl

theorem create_table_dishes (s : state) (ein k : ℕ) :
    (create_table s ein k).2.dishes_ = s.dishes_ := by
  simp only [create_table]
  split <;> rfl

/-! ### Claim theorems -/

/-- C10: for every state and RNG, `score_assignment()` returns exactly 0
and `score_data(rng)` returns exactly 0 (both are `const` members, so the
state is untouched): the joint scores are unimplemented constants. -/
theorem score_constants :
    ∀ (s : state) (r : RNG), score_assignment s = 0 ∧ score_data s r = 0 :=
  fun _ _ => ⟨rfl, rfl⟩

/-- C9: `table_assignments()` and `dish_assignments()` never report
per-document containers: both fire `MICROSCOPES_DCHECK(false, "... not
implemented")` on every state, contradicting the repository's own test
`test_explicit_initializtion`, which expects containers whose length
equals the number of documents. -/
theorem assignments_accessors_not_implemented :
    ∀ s : state,
      table_assignments s = Except.error "table_assignments not implemented" ∧
        dish_assignments s = Except.error "dish_assignments not implemented" :=
  fun _ => ⟨rfl, rfl⟩

/-- C4: detaching an already-unassigned word (its `t_ji` entry is the
sentinel 0) leaves the entire state unchanged — `remove_table` is a
defined no-op there. -/
theorem remove_table_noop (s : state) (j i : ℕ) (h : getD2 s.t_ji j i 0 = 0) :
    remove_table s j i = s := by
  unfold remove_table
  simp [h]

theorem remove_table_noop_witness :
    getD2 SA.t_ji 0 0 0 = 0 ∧ remove_table SA 0 0 = SA :=
  ⟨by decide, remove_table_noop SA 0 0 (by decide)⟩

/-- C7 (counterexample): constructing a state with all three
hyperparameters non-positive succeeds — the claim that construction fails
fast on a non-positive hyperparameter is false on this code. -/
theorem construction_hyper_cx :
    exceptOk (initialize_state 3 7 (-1) (-1) (-1) [[0, 1], [2], [3]]) = true :=
  rfl

/-- C7 (amended): construction fails with an invalid-configuration error
exactly when the document count or the vocabulary size is zero; the
hyperparameters `alpha`, `beta`, `gamma` are not validated at all. -/
theorem construction_ok_iff (n v : ℕ) (a b g : ℚ) (docs : List (List ℕ)) :
    exceptOk (initialize_state n v a b g docs) = true ↔ (0 < n ∧ 0 < v) := by
  unfold initialize_state model_definition_make
  by_cases hn : 0 < n <;> by_cases hv : 0 < v <;>
    simp [hn, hv, Except.map, exceptOk]

theorem construction_ok_iff_witness :
    exceptOk (initialize_state 3 7 (1 / 5) (1 / 100) (1 / 2) [[0, 1], [2], [3]]) = true ↔
      (0 < 3 ∧ 0 < 7) :=
  construction_ok_iff 3 7 (1 / 5) (1 / 100) (1 / 2) [[0, 1], [2], [3]]

/-- C8: the sweep is deterministic — identical starting states, identical
special-function suppliers and identical draw streams yield identical
post-sweep results — and `_inference` is exactly the word phase over every
document and word, fully followed by the table phase over every document
and active table. -/
theorem inference_deterministic (nm nm' : Numerics) (s s' : state) (r r' : RNG)
    (hnm : nm = nm') (hs : s = s') (hr : r = r') :
    _inference nm s r = _inference nm' s' r' ∧
      _inference nm s r = (match wordPhase nm s r with
        | Except.error e => Except.error e
        | Except.ok a => tablePhase nm a.1 a.2) := by
  subst hnm hs hr
  exact ⟨rfl, rfl⟩

theorem inference_deterministic_witness :
    _inference nmId SA [] = _inference nmId SA [] ∧
      _inference nmId SA [] = (match wordPhase nmId SA [] with
        | Except.error e => Except.error e
        | Except.ok a => tablePhase nmId a.1 a.2) :=
  inference_deterministic nmId nmId SA SA [] [] rfl rfl rfl

/-- C6 (counterexample): in `CX6`, table 1 of document 0 sits at dish 1
and dish 1 owns two tables; `leave_from_dish(0, 1)` decrements the counts
but does NOT clear `k_jt[0][1]` to the sentinel — the clearing only
happens in the cascade (dish-destruction) branch. -/
theorem leave_from_dish_cx :
    getD2 (leave_from_dish CX6 0 1).k_jt 0 1 0 ≠ 0 := by decide

/-- C6 (amended): `leave_from_dish(j, t)` decrements the table's dish's
table count `m_k[k]` and the global table count `m`; when that table
count reaches 0 it destroys the dish (removing it from the active dish
sequence) and clears `k_jt[j][t]` to the sentinel 0; otherwise the
table's dish assignment is left in place. -/
theorem leave_from_dish_spec (s : state) (j t : ℕ)
    (hmk : 0 < s.m_k.getD (getD2 s.k_jt j t 0) 0) :
    (leave_from_dish s j t).m = s.m - 1 ∧
      (leave_from_dish s j t).m_k.getD (getD2 s.k_jt j t 0) 0 =
        s.m_k.getD (getD2 s.k_jt j t 0) 0 - 1 ∧
      (s.m_k.getD (getD2 s.k_jt j t 0) 0 = 1 →
        (leave_from_dish s j t).dishes_ = s.dishes_.erase (getD2 s.k_jt j t 0) ∧
          getD2 (leave_from_dish s j t).k_jt j t 0 = 0) ∧
      (1 < s.m_k.getD (getD2 s.k_jt j t 0) 0 →
        (leave_from_dish s j t).dishes_ = s.dishes_ ∧
          getD2 (leave_from_dish s j t).k_jt j t 0 = getD2 s.k_jt j t 0) := by
  have hb : getD2 s.k_jt j t 0 < s.m_k.length := by
    by_contra hc
    rw [List.getD_eq_default _ _ (Nat.le_of_not_lt hc)] at hmk
    exact Nat.lt_irrefl 0 hmk
  have hdec : (modL s.m_k (getD2 s.k_jt j t 0) (· - 1)).getD (getD2 s.k_jt j t 0) 0
      = s.m_k.getD (getD2 s.k_jt j t 0) 0 - 1 := getD_modL_self _ _ _ _ hb
  by_cases h1 : s.m_k.getD (getD2 s.k_jt j t 0) 0 = 1
  · have heq : leave_from_dish s j t =
        { s with m_k := modL s.m_k (getD2 s.k_jt j t 0) (· - 1)
                 m := s.m - 1
                 dishes_ := s.dishes_.erase (getD2 s.k_jt j t 0)
                 k_jt := modL2 s.k_jt j t (fun _ => 0) } := by
      simp only [leave_from_dish]
      rw [if_pos (by rw [hdec, h1])]
    rw [heq]
    exact ⟨rfl, hdec, fun _ => ⟨rfl, getD2_modL2_const_zero _ _ _⟩,
      fun hgt => absurd h1 (by omega)⟩
  · have heq : leave_from_dish s j t =
        { s with m_k := modL s.m_k (getD2 s.k_jt j t 0) (· - 1)
                 m := s.m - 1 } := by
      simp only [leave_from_dish]
      rw [if_neg (by rw [hdec]; omega)]
    rw [heq]
    exact ⟨rfl, hdec, fun h2 => absurd h2 h1, fun _ => ⟨rfl, rfl⟩⟩

theorem leave_from_dish_spec_witness :
    0 < CX6.m_k.getD (getD2 CX6.k_jt 0 1 0) 0 ∧
      ((leave_from_dish CX6 0 1).m = CX6.m - 1 ∧
        (leave_from_dish CX6 0 1).m_k.getD (getD2 CX6.k_jt 0 1 0) 0 =
          CX6.m_k.getD (getD2 CX6.k_jt 0 1 0) 0 - 1 ∧
        (CX6.m_k.getD (getD2 CX6.k_jt 0 1 0) 0 = 1 →
          (leave_from_dish CX6 0 1).dishes_ = CX6.dishes_.erase (getD2 CX6.k_jt 0 1 0) ∧
            getD2 (leave_from_dish CX6 0 1).k_jt 0 1 0 = 0) ∧
        (1 < CX6.m_k.getD (getD2 CX6.k_jt 0 1 0) 0 →
          (leave_from_dish CX6 0 1).dishes_ = CX6.dishes_ ∧
            getD2 (leave_from_dish CX6 0 1).k_jt 0 1 0 = getD2 CX6.k_jt 0 1 0)) :=
  ⟨by decide, leave_from_dish_spec CX6 0 1 (by decide)⟩

/-- C5 (counterexample): in `CX5`, word 0 of document 0 is the only word
at table 1; detaching it destroys the table (and its dish), so re-attach
to the same table id does not restore the state — the active table
sequence has lost the id. -/
theorem detach_attach_cx :
    add_table (remove_table CX5 0 0) 0 1 0 ≠ CX5 := by
  intro h
  have h2 := congrArg state.using_t h
  exact absurd h2 (by decide)

/-- C5 (amended): when the word's table holds at least two words before
the detach (so no cascade destruction), and the table's per-word counter
for the word's term is positive (as the count invariants guarantee for an
attached word), `remove_table(j, i)` immediately followed by
`add_table(j, t, i)` to the same table restores the entire state — all of
`n_jt`, `n_jtv`, `n_k`, `n_kv`, `m_k`, `m`, `t_ji` and the active table
and dish sequences.  When the table holds exactly one word, the detach
destroys the table (cascading to its dish), and the active sequences,
`m_k` and `m` are not restored. -/
theorem detach_attach_roundtrip (s : state) (j i t : ℕ)
    (ht : getD2 s.t_ji j i 0 = t) (htpos : 0 < t)
    (h2 : 2 ≤ getD2 s.n_jt j t 0)
    (hv : 1 ≤ mapGet (getD2 s.n_jtv j t []) (getD2 s.x_ji j i 0)) :
    add_table (remove_table s j i) j t i = s := by
  obtain ⟨hbj, hbt⟩ := getD2_pos_lt (l := s.n_jt) (i := j) (j := t) (by omega)
  have hrm : remove_table s j i =
      { s with
        n_kv_ := modL s.n_kv_ (getD2 s.k_jt j t 0)
          (fun dd => updF dd (getD2 s.x_ji j i 0) (dd (getD2 s.x_ji j i 0) - 1))
        n_k := updF s.n_k (getD2 s.k_jt j t 0) (s.n_k (getD2 s.k_jt j t 0) - 1)
        n_jt := modL2 s.n_jt j t (· - 1)
        n_jtv := modL2 s.n_jtv j t
          (fun mp => mapDecr mp (getD2 s.x_ji j i 0) 1) } := by
    simp only [remove_table, ht]
    rw [if_pos htpos, if_neg (by rw [getD2_modL2_self _ _ _ _ _ hbj hbt]; omega)]
  have ht_ji : modL2 s.t_ji j i (fun _ => t) = s.t_ji :=
    modL2_eq_self _ _ _ _ 0 (by simpa using ht.symm)
  have hn_jt : modL2 (modL2 s.n_jt j t (· - 1)) j t (· + 1) = s.n_jt := by
    rw [modL2_modL2]
    refine modL2_eq_self _ _ _ _ 0 ?_
    show getD2 s.n_jt j t 0 - 1 + 1 = getD2 s.n_jt j t 0
    omega
  have hn_k : updF (updF s.n_k (getD2 s.k_jt j t 0)
        (s.n_k (getD2 s.k_jt j t 0) - 1)) (getD2 s.k_jt j t 0)
        (updF s.n_k (getD2 s.k_jt j t 0) (s.n_k (getD2 s.k_jt j t 0) - 1)
          (getD2 s.k_jt j t 0) + 1) = s.n_k := by
    rw [updF_apply, updF_updF, sub_add_cancel, updF_self]
  have hn_kv : modL (modL s.n_kv_ (getD2 s.k_jt j t 0)
        (fun dd => updF dd (getD2 s.x_ji j i 0) (dd (getD2 s.x_ji j i 0) - 1)))
        (getD2 s.k_jt j t 0)
        (fun dd => updF dd (getD2 s.x_ji j i 0) (dd (getD2 s.x_ji j i 0) + 1))
      = s.n_kv_ := by
    rw [modL_modL]
    have hfun : (fun dd : ℕ → ℚ =>
        updF (updF dd (getD2 s.x_ji j i 0) (dd (getD2 s.x_ji j i 0) - 1))
          (getD2 s.x_ji j i 0)
          (updF dd (getD2 s.x_ji j i 0) (dd (getD2 s.x_ji j i 0) - 1)
            (getD2 s.x_ji j i 0) + 1)) = fun dd : ℕ → ℚ => dd := by
      funext dd
      rw [updF_apply, updF_updF, sub_add_cancel, updF_self]
    rw [hfun]
    exact modL_eq_self _ _ _ (fun _ => 0) rfl
  have hn_jtv : modL2 (modL2 s.n_jtv j t
        (fun mp => mapDecr mp (getD2 s.x_ji j i 0) 1)) j t
        (fun mp => mapIncr mp (getD2 s.x_ji j i 0) 1) = s.n_jtv := by
    rw [modL2_modL2]
    exact modL2_eq_self _ _ _ _ [] (mapIncr_mapDecr _ _ hv)
  rw [hrm]
  simp only [add_table]
  apply state.ext <;>
    simp only [ht_ji, hn_jt, hn_k, hn_kv, hn_jtv]

theorem detach_attach_roundtrip_witness :
    getD2 WX5.t_ji 0 0 0 = 1 ∧ 0 < 1 ∧ 2 ≤ getD2 WX5.n_jt 0 1 0 ∧
      1 ≤ mapGet (getD2 WX5.n_jtv 0 1 []) (getD2 WX5.x_ji 0 0 0) ∧
      add_table (remove_table WX5 0 0) 0 1 0 = WX5 :=
  ⟨by decide, by decide, by decide, by decide,
    detach_attach_roundtrip WX5 0 0 1 (by decide) (by decide) (by decide) (by decide)⟩

/-- C3: in the new-table-new-dish branch of `sampling_t` — which calls
`create_dish()` once and then `create_table(j, k_new)` once — the new
dish id is the lowest positive integer not in the active dish sequence
and the new table id is the lowest positive integer not in the document's
active table sequence, and each sequence gains exactly that one id (it is
inserted at its sorted position).  The hypotheses are the reachable-state
invariants: both active sequences are strictly sorted with the sentinel 0
at the head, and document `j` exists. -/
theorem fresh_ids_lowest_unused (s : state) (j : ℕ)
    (hds : s.dishes_.Pairwise (· < ·)) (hd0 : s.dishes_.head? = some 0)
    (hts : (s.using_t.getD j []).Pairwise (· < ·))
    (ht0 : (s.using_t.getD j []).head? = some 0)
    (hj : j < s.using_t.length) :
    (0 < (create_dish s).1 ∧ (create_dish s).1 ∉ s.dishes_ ∧
        (∀ n, n < (create_dish s).1 → n ∈ s.dishes_) ∧
        (create_dish s).2.dishes_ =
          insertAt s.dishes_ (create_dish s).1 (create_dish s).1) ∧
      (0 < (create_table (create_dish s).2 j (create_dish s).1).1 ∧
        (create_table (create_dish s).2 j (create_dish s).1).1 ∉
          s.using_t.getD j [] ∧
        (∀ n, n < (create_table (create_dish s).2 j (create_dish s).1).1 →
          n ∈ s.using_t.getD j []) ∧
        (create_table (create_dish s).2 j (create_dish s).1).2.using_t.getD j []
          = insertAt (s.using_t.getD j [])
              (create_table (create_dish s).2 j (create_dish s).1).1
              (create_table (create_dish s).2 j (create_dish s).1).1 ∧
        (create_table (create_dish s).2 j (create_dish s).1).2.dishes_ =
          (create_dish s).2.dishes_) := by
  obtain ⟨hg1, hg2⟩ := firstGap_spec s.dishes_ hds
  have h0mem : (0 : ℕ) ∈ s.dishes_ := by
    cases hl : s.dishes_ with
    | nil => rw [hl] at hd0; simp at hd0
    | cons a as =>
      rw [hl] at hd0
      simp only [List.head?_cons, Option.some.injEq] at hd0
      rw [← hd0]
      exact List.mem_cons_self _ _
  have hkpos : 0 < firstGap s.dishes_ :=
    Nat.pos_of_ne_zero (fun hz => hg1 (hz ▸ h0mem))
  obtain ⟨hg3, hg4⟩ := firstGap_spec (s.using_t.getD j []) hts
  have h0memt : (0 : ℕ) ∈ s.using_t.getD j [] := by
    cases hl : s.using_t.getD j [] with
    | nil => rw [hl] at ht0; simp at ht0
    | cons a as =>
      rw [hl] at ht0
      simp only [List.head?_cons, Option.some.injEq] at ht0
      rw [← ht0]
      exact List.mem_cons_self _ _
  have htpos : 0 < firstGap (s.using_t.getD j []) :=
    Nat.pos_of_ne_zero (fun hz => hg3 (hz ▸ h0memt))
  have ht1 : (create_table (create_dish s).2 j (create_dish s).1).1 =
      firstGap (s.using_t.getD j []) := by
    rw [create_table_fst, create_dish_using_t]
  have hs2u : (create_table (create_dish s).2 j (create_dish s).1).2.using_t.getD j []
      = insertAt (s.using_t.getD j []) (firstGap (s.using_t.getD j []))
          (firstGap (s.using_t.getD j [])) := by
    rw [create_table_using_t, create_dish_using_t, getD_modL_self _ _ _ _ hj]
  have hs2d : (create_table (create_dish s).2 j (create_dish s).1).2.dishes_ =
      (create_dish s).2.dishes_ := create_table_dishes _ _ _
  refine ⟨⟨hkpos, hg1, hg2, create_dish_dishes s⟩, ?_, ?_, ?_, ?_, hs2d⟩
  · rw [ht1]; exact htpos
  · rw [ht1]; exact hg3
  · rw [ht1]; exact hg4
  · rw [ht1, hs2u]

theorem fresh_ids_lowest_unused_witness :
    WX3.dishes_.Pairwise (· < ·) ∧ WX3.dishes_.head? = some 0 ∧
      (WX3.using_t.getD 0 []).Pairwise (· < ·) ∧
      (WX3.using_t.getD 0 []).head? = some 0 ∧ 0 < WX3.using_t.length ∧
      ((0 < (create_dish WX3).1 ∧ (create_dish WX3).1 ∉ WX3.dishes_ ∧
          (∀ n, n < (create_dish WX3).1 → n ∈ WX3.dishes_) ∧
          (create_dish WX3).2.dishes_ =
            insertAt WX3.dishes_ (create_dish WX3).1 (create_dish WX3).1) ∧
        (0 < (create_table (create_dish WX3).2 0 (create_dish WX3).1).1 ∧
          (create_table (create_dish WX3).2 0 (create_dish WX3).1).1 ∉
            WX3.using_t.getD 0 [] ∧
          (∀ n, n < (create_table (create_dish WX3).2 0 (create_dish WX3).1).1 →
            n ∈ WX3.using_t.getD 0 []) ∧
          (create_table (create_dish WX3).2 0 (create_dish WX3).1).2.using_t.getD 0 []
            = insertAt (WX3.using_t.getD 0 [])
                (create_table (create_dish WX3).2 0 (create_dish WX3).1).1
                (create_table (create_dish WX3).2 0 (create_dish WX3).1).1 ∧
          (create_table (create_dish WX3).2 0 (create_dish WX3).1).2.dishes_ =
            (create_dish WX3).2.dishes_)) :=
  ⟨by decide, by decide, by decide, by decide, by decide,
    fresh_ids_lowest_unused WX3 0 (by decide) (by decide) (by decide)
      (by decide) (by decide)⟩

/-- C1: for a document whose active-table list carries the sentinel at
its head (and, as for every reachable list, without duplicates) and a
ratio vector sized like `m_k`, `calc_table_posterior(j, f_k)` returns the
normalization of the vector indexed by the active-table list whose entry
for each real table `t` is `n_jt[j][t] * f_k[k_jt[j][t]]` and whose
sentinel entry is `alpha * (gamma/V + dot(f_k, m_k)) / (gamma + m)`; when
that vector's sum is nonzero, the result sums to exactly 1. -/
theorem calc_table_posterior_spec (s : state) (j : ℕ) (f_k : List ℚ)
    (hlen : f_k.length = s.m_k.length)
    (hsent : (s.using_t.getD j []).head? = some 0)
    (hnodup : (s.using_t.getD j []).Nodup) :
    calc_table_posterior s j f_k =
      normalizeQ ((s.using_t.getD j []).map (fun tt =>
        if tt = 0 then
          s.alpha_ * (s.gamma_ / (s.V : ℚ) + dotQ f_k s.m_k) / (s.gamma_ + (s.m : ℚ))
        else ((getD2 s.n_jt j tt 0 : ℕ) : ℚ) * f_k.getD (getD2 s.k_jt j tt 0) 0)) ∧
      (((s.using_t.getD j []).map (fun tt =>
        if tt = 0 then
          s.alpha_ * (s.gamma_ / (s.V : ℚ) + dotQ f_k s.m_k) / (s.gamma_ + (s.m : ℚ))
        else ((getD2 s.n_jt j tt 0 : ℕ) : ℚ) * f_k.getD (getD2 s.k_jt j tt 0) 0)).sum ≠ 0 →
        (calc_table_posterior s j f_k).sum = 1) := by
  obtain ⟨as, hut⟩ : ∃ as, s.using_t.getD j [] = 0 :: as := by
    cases hl : s.using_t.getD j [] with
    | nil => rw [hl] at hsent; simp at hsent
    | cons a as =>
      rw [hl] at hsent
      simp only [List.head?_cons, Option.some.injEq] at hsent
      exact ⟨as, by rw [← hsent]⟩
  have h0notin : ∀ x ∈ as, x ≠ (0 : ℕ) := by
    rw [hut] at hnodup
    intro x hx hx0
    exact (List.nodup_cons.mp hnodup).1 (hx0 ▸ hx)
  have hmapgen : ∀ l : List ℕ, (∀ x ∈ l, x ≠ (0 : ℕ)) →
      l.map (fun tt =>
        if tt = 0 then
          s.alpha_ * (s.gamma_ / (s.V : ℚ) + dotQ f_k s.m_k) / (s.gamma_ + (s.m : ℚ))
        else ((getD2 s.n_jt j tt 0 : ℕ) : ℚ) * f_k.getD (getD2 s.k_jt j tt 0) 0) =
      l.map (fun tt =>
        ((getD2 s.n_jt j tt 0 : ℕ) : ℚ) * f_k.getD (getD2 s.k_jt j tt 0) 0) := by
    intro l
    induction l with
    | nil => intro _; rfl
    | cons b bs ih =>
      intro hl
      have hb : b ≠ 0 := hl b (List.mem_cons_self _ _)
      simp only [List.map_cons, if_neg hb]
      rw [ih (fun x hx => hl x (List.mem_cons_of_mem _ hx))]
  have hmapeq := hmapgen as h0notin
  have hwspec : (s.using_t.getD j []).map (fun tt =>
      if tt = 0 then
        s.alpha_ * (s.gamma_ / (s.V : ℚ) + dotQ f_k s.m_k) / (s.gamma_ + (s.m : ℚ))
      else ((getD2 s.n_jt j tt 0 : ℕ) : ℚ) * f_k.getD (getD2 s.k_jt j tt 0) 0) =
      (s.alpha_ * (s.gamma_ / (s.V : ℚ) + dotQ f_k s.m_k) / (s.gamma_ + (s.m : ℚ))) ::
        as.map (fun tt =>
          ((getD2 s.n_jt j tt 0 : ℕ) : ℚ) * f_k.getD (getD2 s.k_jt j tt 0) 0) := by
    rw [hut, List.map_cons, if_pos rfl, hmapeq]
  have hcode : calc_table_posterior s j f_k =
      normalizeQ ((s.alpha_ * (s.gamma_ / (s.V : ℚ) + dotQ f_k s.m_k) /
          (s.gamma_ + (s.m : ℚ))) ::
        as.map (fun tt =>
          ((getD2 s.n_jt j tt 0 : ℕ) : ℚ) * f_k.getD (getD2 s.k_jt j tt 0) 0)) := by
    simp only [calc_table_posterior]
    rw [hut, List.map_cons, List.set_cons_zero]
    congr 2
    ring
  refine ⟨by rw [hwspec, hcode], fun hsum => ?_⟩
  rw [hwspec] at hsum
  rw [hcode]
  unfold normalizeQ
  rw [sum_map_div]
  exact div_self hsum

theorem calc_table_posterior_spec_witness :
    ([(1 : ℚ) / 2] : List ℚ).length = SA.m_k.length ∧
      (SA.using_t.getD 0 []).head? = some 0 ∧ (SA.using_t.getD 0 []).Nodup ∧
      (calc_table_posterior SA 0 [1 / 2] =
        normalizeQ ((SA.using_t.getD 0 []).map (fun tt =>
          if tt = 0 then
            SA.alpha_ * (SA.gamma_ / (SA.V : ℚ) + dotQ [1 / 2] SA.m_k) /
              (SA.gamma_ + (SA.m : ℚ))
          else ((getD2 SA.n_jt 0 tt 0 : ℕ) : ℚ) *
            ([(1 : ℚ) / 2]).getD (getD2 SA.k_jt 0 tt 0) 0)) ∧
        (((SA.using_t.getD 0 []).map (fun tt =>
          if tt = 0 then
            SA.alpha_ * (SA.gamma_ / (SA.V : ℚ) + dotQ [1 / 2] SA.m_k) /
              (SA.gamma_ + (SA.m : ℚ))
          else ((getD2 SA.n_jt 0 tt 0 : ℕ) : ℚ) *
            ([(1 : ℚ) / 2]).getD (getD2 SA.k_jt 0 tt 0) 0)).sum ≠ 0 →
          (calc_table_posterior SA 0 [1 / 2]).sum = 1)) :=
  ⟨by decide, by decide, by decide,
    calc_table_posterior_spec SA 0 [1 / 2] (by decide) (by decide) (by decide)⟩

theorem vpv_go_spec (p : List FVal) (a : ℚ) :
    vpv_go a p = true ↔
      ((∀ x ∈ p, ∃ q, x = some q ∧ 0 ≤ q) ∧
        |1 - (a + (p.filterMap id).sum)| < 1 / 100) := by
  induction p generalizing a with
  | nil => simp [vpv_go, absQ_eq_abs]
  | cons x rest ih =>
    cases x with
    | none =>
      simp only [vpv_go]
      constructor
      · intro h; exact absurd h (by simp)
      · rintro ⟨h1, -⟩
        obtain ⟨q, hq, -⟩ := h1 none (List.mem_cons_self _ _)
        exact absurd hq (by simp)
    | some q =>
      simp only [vpv_go]
      by_cases hq : q < 0
      · rw [if_pos hq]
        constructor
        · intro h; exact absurd h (by simp)
        · rintro ⟨h1, -⟩
          obtain ⟨q', hq', hq'2⟩ := h1 (some q) (List.mem_cons_self _ _)
          rw [Option.some.injEq] at hq'
          exact absurd hq (not_lt.mpr (hq' ▸ hq'2))
      · rw [if_neg hq, ih (a + q)]
        constructor
        · rintro ⟨h1, h2⟩
          refine ⟨fun x hx => ?_, ?_⟩
          · rcases List.mem_cons.mp hx with h3 | h3
            · exact ⟨q, h3, not_lt.mp hq⟩
            · exact h1 x h3
          · simpa [add_assoc] using h2
        · rintro ⟨h1, h2⟩
          refine ⟨fun x hx => h1 x (List.mem_cons_of_mem _ hx), ?_⟩
          simpa [add_assoc] using h2

/-- C2: `lda_util::valid_probability_vector` accepts exactly the vectors
whose entries are all finite and non-negative and whose sum is within
0.01 of 1; and the sampler validates the vectors produced by
`calc_table_posterior`, `calc_dish_posterior_w` and
`calc_dish_posterior_t` during a sweep, turning a failed validation into
a fatal error rather than a state the sweep continues with. -/
theorem validation_spec :
    (∀ p : List FVal, valid_probability_vector p = true ↔
        ((∀ x ∈ p, ∃ q, x = some q ∧ 0 ≤ q) ∧
          |1 - (p.filterMap id).sum| < 1 / 100)) ∧
      (∀ (nm : Numerics) (s : state) (j i : ℕ) (r : RNG),
        valid_probability_vector ((calc_table_posterior (remove_table s j i) j
          (calc_f_k (remove_table s j i)
            (getD2 (remove_table s j i).x_ji j i 0))).map some) = false →
        sampling_t nm s j i r = Except.error ()) ∧
      (∀ (nm : Numerics) (s : state) (j i : ℕ) (r : RNG),
        ((remove_table s j i).using_t.getD j []).getD
            (sample_discrete (calc_table_posterior (remove_table s j i) j
              (calc_f_k (remove_table s j i)
                (getD2 (remove_table s j i).x_ji j i 0))) r).1 0 = 0 →
        valid_probability_vector ((calc_dish_posterior_w (remove_table s j i)
          (calc_f_k (remove_table s j i)
            (getD2 (remove_table s j i).x_ji j i 0))).map some) = false →
        sampling_t nm s j i r = Except.error ()) ∧
      (∀ (nm : Numerics) (s : state) (j t : ℕ) (r : RNG),
        valid_probability_vector
            ((calc_dish_posterior_t nm (leave_from_dish s j t) j t).map some) = false →
        sampling_k nm s j t r = Except.error ()) := by
  refine ⟨fun p => ?_, fun nm s j i r hval => ?_, fun nm s j i r ht0 hval => ?_,
    fun nm s j t r hval => ?_⟩
  · simpa [valid_probability_vector, zero_add] using vpv_go_spec p 0
  · simp [sampling_t, validate_probability_vector, hval]
  · cases hb : valid_probability_vector ((calc_table_posterior (remove_table s j i) j
        (calc_f_k (remove_table s j i)
          (getD2 (remove_table s j i).x_ji j i 0))).map some) with
    | false => simp [sampling_t, validate_probability_vector, hb]
    | true =>
      simp only [List.getD_eq_getElem?_getD] at ht0
      simp [sampling_t, validate_probability_vector, hb, ht0, hval]
  · simp [sampling_k, validate_probability_vector, hval]

theorem validation_spec_witness :
    ((∀ x ∈ [some (1 : ℚ)], ∃ q, x = some q ∧ 0 ≤ q) ∧
        |1 - (([some (1 : ℚ)]).filterMap id).sum| < 1 / 100) ∧
      sampling_t nmId S0bad 0 0 [] = Except.error () :=
  ⟨(validation_spec.1 [some 1]).mp
      (by norm_num [valid_probability_vector, vpv_go, absQ]),
    validation_spec.2.1 nmId S0bad 0 0 []
      (by norm_num [S0bad, state_new, remove_table, getD2, calc_f_k,
        calc_table_posterior, normalizeQ, dotQ, valid_probability_vector,
        vpv_go, absQ])⟩

end Lda
